import Mathlib

/-!
Verification development for the `visualize_categorical` repository.

The Python code is shallowly embedded: a pandas `DataFrame` becomes a list of
named columns, a column is a list of optionally-missing cells (a missing cell
models `NaN`), and fallible operations return `Except PyErr`.  Machine floats
in the source are modelled by `ℚ` where the code only does field arithmetic
and by `ℝ` where it takes square roots or logarithms.
-/

/-- Error kinds raised by the Python code (`KeyError`, `ValueError`,
`FileNotFoundError`), as mapped by the CLI error handler. -/
inductive PyErr where
  | keyError
  | valueError
  | fileNotFound
deriving DecidableEq, Repr

/-- A pandas column: an object/categorical column of optional strings, a
numeric column of optional rationals, or a boolean column (never missing,
as produced by `pd.get_dummies`). -/
inductive Col where
  | strCol (vs : List (Option String))
  | numCol (vs : List (Option ℚ))
  | boolCol (vs : List Bool)
deriving DecidableEq, Repr

/-- A pandas DataFrame: an ordered association list of named columns. -/
abbrev DataFrame := List (String × Col)

/-- The column labels of a DataFrame (`df.columns`). -/
def colNames (df : DataFrame) : List String := df.map (·.1)

/-- Look a column up by name (`df[c]`), `none` when absent. -/
def getCol (df : DataFrame) (c : String) : Option Col :=
  (df.find? (fun p => p.1 = c)).map (·.2)

/-- Column lookup with an empty default. -/
def getColD (df : DataFrame) (c : String) : Col :=
  (getCol df c).getD (Col.strCol [])

/-- The cells of a string column looked up by name, `[]` when the name is
absent or the column is not an object/categorical column. -/
def getStrColD (df : DataFrame) (c : String) : List (Option String) :=
  match getCol df c with
  | some (Col.strCol vs) => vs
  | _ => []

/-- Replace the named column in place (`df[c] = col`). -/
def setCol (df : DataFrame) (c : String) (col : Col) : DataFrame :=
  df.map (fun p => if p.1 = c then (p.1, col) else p)

/-- Number of cells in a column. -/
def colLength : Col → ℕ
  | Col.strCol vs => vs.length
  | Col.numCol vs => vs.length
  | Col.boolCol vs => vs.length

/-- Number of non-missing cells in a column (`df[c].dropna().shape[0]`). -/
def colDropnaLength : Col → ℕ
  | Col.strCol vs => (vs.filterMap id).length
  | Col.numCol vs => (vs.filterMap id).length
  | Col.boolCol vs => vs.length

/-- Row count of a DataFrame (`len(df)`), read off the first column. -/
def nrows (df : DataFrame) : ℕ :=
  match df with
  | [] => 0
  | p :: _ => colLength p.2

/-- First index of an element in a list (`list.index`). -/
def idxOf {α : Type} [DecidableEq α] (l : List α) (v : α) : ℕ :=
  l.findIdx (fun x => decide (x = v))

/-- Distinct elements of a list in order of first appearance, extending an
already-seen accumulator (the hash-table order used by `pd.factorize`). -/
def extendFirstSeen {α : Type} [DecidableEq α] (acc : List α) (l : List α) : List α :=
  l.foldl (fun a v => if v ∈ a then a else a ++ [v]) acc

/-- Distinct elements of a list in order of first appearance. -/
def firstSeen {α : Type} [DecidableEq α] (l : List α) : List α :=
  extendFirstSeen [] l

/-- Distinct elements of a list in ascending order (the category order used
by `sklearn`'s encoders and by `pd.get_dummies`). -/
def sortDedup {α : Type} [LinearOrder α] [DecidableEq α] (l : List α) : List α :=
  List.insertionSort (· ≤ ·) (firstSeen l)

/-- `sklearn.preprocessing.OrdinalEncoder.fit_transform` on a single column:
each non-missing value is replaced by its index among the ascending sorted
distinct values; missing cells stay missing. -/
def ordinalCodes {α : Type} [LinearOrder α] [DecidableEq α] (vs : List (Option α)) : List (Option ℚ) :=
  vs.map (Option.map (fun v => (idxOf (sortDedup (vs.filterMap id)) v : ℚ)))

/-- `sklearn.preprocessing.LabelEncoder.fit_transform` on a single column:
classes are the sorted distinct values, each value replaced by its class
index; functionally the same code assignment as `OrdinalEncoder`. -/
def labelCodes {α : Type} [LinearOrder α] [DecidableEq α] (vs : List (Option α)) : List (Option ℚ) :=
  vs.map (Option.map (fun v => (idxOf (sortDedup (vs.filterMap id)) v : ℚ)))

/-- The single-pass worker of `pd.factorize`: codes are assigned in the order
values are first encountered; missing cells get code `-1`. -/
def factorizeGo {α : Type} [DecidableEq α] : List (Option α) → List α → List ℚ
  | [], _ => []
  | none :: t, seen => (-1 : ℚ) :: factorizeGo t seen
  | some v :: t, seen =>
      if v ∈ seen then (idxOf seen v : ℚ) :: factorizeGo t seen
      else (seen.length : ℚ) :: factorizeGo t (seen ++ [v])

/-- `pd.factorize(column)[0]`: first-seen integer codes, `-1` for missing. -/
def factorizeCodes {α : Type} [DecidableEq α] (vs : List (Option α)) : List ℚ :=
  factorizeGo vs []

/-- Specification-style description of first-seen codes: each non-missing
value is replaced by the position of its first appearance order among the
distinct values, missing cells by `-1`. -/
def firstSeenCodes {α : Type} [DecidableEq α] (vs : List (Option α)) : List ℚ :=
  vs.map (fun o => match o with
    | none => (-1 : ℚ)
    | some v => (idxOf (firstSeen (vs.filterMap id)) v : ℚ))

/-- Specification-style description of `OrdinalEncoder` codes: each value is
replaced by the number of distinct values of the column strictly below it. -/
def sortedRankCodes {α : Type} [LinearOrder α] [DecidableEq α] (vs : List (Option α)) : List (Option ℚ) :=
  vs.map (Option.map (fun v =>
    ((firstSeen (vs.filterMap id)).countP (fun u => decide (u < v)) : ℚ)))

/-- Ordinal transform of one column (`OrdinalEncoder` over the column's own
value type; booleans sort `False < True`). -/
def ordinalTransformCol : Col → Col
  | Col.strCol vs => Col.numCol (ordinalCodes vs)
  | Col.numCol vs => Col.numCol (ordinalCodes vs)
  | Col.boolCol vs => Col.numCol (ordinalCodes (vs.map some))

/-- Label transform of one column (`LabelEncoder`). -/
def labelTransformCol : Col → Col
  | Col.strCol vs => Col.numCol (labelCodes vs)
  | Col.numCol vs => Col.numCol (labelCodes vs)
  | Col.boolCol vs => Col.numCol (labelCodes (vs.map some))

/-- The indicator columns `pd.get_dummies` generates for one source column:
one boolean column per distinct non-missing value, in ascending value order,
named `name_value`; a missing cell is `False` in every indicator. -/
def dummyCols {α : Type} [LinearOrder α] [DecidableEq α] (name : String) (toName : α → String)
    (vs : List (Option α)) : List (String × Col) :=
  (sortDedup (vs.filterMap id)).map (fun v =>
    (name ++ "_" ++ toName v, Col.boolCol (vs.map (fun o => decide (o = some v)))))

/-- Printable label for a rational cell value, used only to build dummy
column names. -/
def ratName (q : ℚ) : String := toString q.num ++ "/" ++ toString q.den

/-- Indicator columns for a column of any dtype. -/
def dummiesOfCol (name : String) : Col → List (String × Col)
  | Col.strCol vs => dummyCols name id vs
  | Col.numCol vs => dummyCols name ratName vs
  | Col.boolCol vs => dummyCols name (fun b => cond b "True" "False") (vs.map some)

/-- `pd.get_dummies(df, columns=[column], prefix=column)`: the source column
is removed and its indicator columns are appended at the end of the frame. -/
def getDummies (df : DataFrame) (column : String) : DataFrame :=
  df.filter (fun p => decide (p.1 ≠ column)) ++ dummiesOfCol column (getColD df column)

/-- `core.encode_categorical(df, column, method)`: checks the column exists
(raising `KeyError` otherwise), then dispatches on the method, raising
`ValueError` for any unrecognized method. -/
def encode_categorical (df : DataFrame) (column : String) (method : String) :
    Except PyErr DataFrame :=
  if column ∈ colNames df then
    if method = "onehot" then .ok (getDummies df column)
    else if method = "ordinal" then
      .ok (setCol df column (ordinalTransformCol (getColD df column)))
    else if method = "label" then
      .ok (setCol df column (labelTransformCol (getColD df column)))
    else .error PyErr.valueError
  else .error PyErr.keyError

/-- `core.validate_category_column(df, column)`: `ValueError` when the column
is absent, `ValueError` when it holds no non-missing value. -/
def validate_category_column (df : DataFrame) (column : String) :
    Except PyErr Unit :=
  if column ∈ colNames df then
    if colDropnaLength (getColD df column) = 0 then .error PyErr.valueError
    else .ok ()
  else .error PyErr.valueError

/-- Names of the object/categorical columns of a frame
(`df.select_dtypes(include=["object", "category"]).columns`). -/
def catColNames (df : DataFrame) : List String :=
  df.filterMap (fun p => match p.2 with
    | Col.strCol _ => some p.1
    | _ => none)

/-- `analyzer._encode_all_columns(df, method)`: bulk-encode every
object/categorical column.  One-hot removes all of them and appends their
indicator columns; ordinal and label both replace each with
`pd.factorize` codes. -/
def encode_all_columns (df : DataFrame) (method : String) :
    Except PyErr DataFrame :=
  if method = "onehot" then
    .ok (df.filter (fun p => match p.2 with | Col.strCol _ => false | _ => true) ++
         (df.filterMap (fun p => match p.2 with
            | Col.strCol vs => some (dummyCols p.1 id vs)
            | _ => none)).flatten)
  else if method = "ordinal" then
    .ok (df.map (fun p => match p.2 with
      | Col.strCol vs => (p.1, Col.numCol ((factorizeCodes vs).map some))
      | _ => p))
  else if method = "label" then
    .ok (df.map (fun p => match p.2 with
      | Col.strCol vs => (p.1, Col.numCol ((factorizeCodes vs).map some))
      | _ => p))
  else .error PyErr.valueError

/-- `analyzer.prepare_dataframe(df, encode)`: a plain copy when the encode
method is `None`, falsy, or the string `"none"`, otherwise a bulk encode. -/
def prepare_dataframe (df : DataFrame) (encode : Option String) :
    Except PyErr DataFrame :=
  match encode with
  | none => .ok df
  | some m => if m = "none" ∨ m = "" then .ok df else encode_all_columns df m

/-- Per-column summary produced by `analyzer.compute_distributions`:
`value_counts(dropna=False)` pairs, their number, the most frequent value
(`none` both for the NaN bucket and for an empty column) and its share of
the row count. -/
structure DistInfo where
  counts : List (Option String × ℕ)
  n_unique : ℕ
  most_freq : Option String
  most_freq_share : ℚ
deriving DecidableEq, Repr

/-- `series.value_counts(dropna=False)`: count of every distinct cell
(including the missing bucket), sorted by count descending, ties kept in
first-appearance order (stable sort). -/
def value_counts (vs : List (Option String)) : List (Option String × ℕ) :=
  List.insertionSort (fun a b => b.2 ≤ a.2)
    ((firstSeen vs).map (fun v => (v, vs.count v)))

/-- `analyzer.compute_distributions(df)`: one `DistInfo` per
object/categorical column, keyed by column name. -/
def compute_distributions (df : DataFrame) : List (String × DistInfo) :=
  df.filterMap (fun p => match p.2 with
    | Col.strCol vs =>
        let vc := value_counts vs
        some (p.1,
          { counts := vc
            n_unique := vc.length
            most_freq := ((vc.head?).map (·.1)).join
            most_freq_share := (((vc.head?).map (·.2)).getD 0 : ℚ) / (nrows df : ℚ) })
    | _ => none)

/-- The numeric view taken by `analyzer.compute_correlation_matrix`:
numeric and boolean columns, with booleans converted to 0/1. -/
def numericBoolCols (df : DataFrame) : List (String × List (Option ℚ)) :=
  df.filterMap (fun p => match p.2 with
    | Col.numCol vs => some (p.1, vs)
    | Col.boolCol vs => some (p.1, vs.map (fun b => some (if b then (1 : ℚ) else 0)))
    | Col.strCol _ => none)

/-- Rows where both series are non-missing (pandas' pairwise deletion
inside `DataFrame.corr`). -/
def pairedRows (x y : List (Option ℚ)) : List (ℚ × ℚ) :=
  (x.zip y).filterMap (fun p => match p with
    | (some a, some b) => some (a, b)
    | _ => none)

/-- Arithmetic mean of a rational list (0 for the empty list). -/
def qMean (l : List ℚ) : ℚ := l.sum / (l.length : ℚ)

/-- Centered cross-product sum `Σ (xᵢ - x̄)(yᵢ - ȳ)` over a paired sample. -/
def sProd (ps : List (ℚ × ℚ)) : ℚ :=
  (ps.map (fun p => (p.1 - qMean (ps.map Prod.fst)) * (p.2 - qMean (ps.map Prod.snd)))).sum

/-- `Σ (xᵢ - x̄)²` of the first components of a paired sample. -/
def sxxOf (ps : List (ℚ × ℚ)) : ℚ :=
  (ps.map (fun p => (p.1 - qMean (ps.map Prod.fst)) ^ 2)).sum

/-- `Σ (yᵢ - ȳ)²` of the second components of a paired sample. -/
def syyOf (ps : List (ℚ × ℚ)) : ℚ :=
  (ps.map (fun p => (p.2 - qMean (ps.map Prod.snd)) ^ 2)).sum

/-- `Σ (xᵢ - x̄)²` of a column's non-missing values; the column has nonzero
variance exactly when this is nonzero. -/
def sumSq (vs : List (Option ℚ)) : ℚ :=
  sxxOf (pairedRows vs vs)

/-- Whether the Pearson correlation of two series is defined (pandas yields
`NaN` when there are no common rows or either side has zero variance). -/
def corrDefinedB (x y : List (Option ℚ)) : Bool :=
  let ps := pairedRows x y
  decide (ps ≠ [] ∧ sxxOf ps ≠ 0 ∧ syyOf ps ≠ 0)

/-- One Pearson correlation entry,
`Σ(xᵢ-x̄)(yᵢ-ȳ) / sqrt(Σ(xᵢ-x̄)² · Σ(yᵢ-ȳ)²)`, `none` standing for `NaN`. -/
noncomputable def pearsonEntry (x y : List (Option ℚ)) : Option ℝ :=
  if corrDefinedB x y then
    some (((sProd (pairedRows x y) : ℚ) : ℝ) /
      Real.sqrt (((sxxOf (pairedRows x y) : ℚ) : ℝ) * ((syyOf (pairedRows x y) : ℚ) : ℝ)))
  else none

/-- A square matrix indexed by column labels, with possibly-missing (`NaN`)
entries, accessed positionally. -/
structure MatO (α : Type) where
  idx : List String
  entry : ℕ → ℕ → Option α

/-- `analyzer.compute_correlation_matrix(df)`: Pearson correlations of the
numeric/boolean columns (booleans first converted to integers). -/
noncomputable def compute_correlation_matrix (df : DataFrame) : MatO ℝ :=
  { idx := (numericBoolCols df).map (·.1)
    entry := fun i j =>
      match (numericBoolCols df).get? i, (numericBoolCols df).get? j with
      | some a, some b => pearsonEntry a.2 b.2
      | _, _ => none }

/-- Whether row `i` of the correlation grid over `cols` survives
`dropna(how="all")`: it has at least one defined entry. -/
def corrRowKeptB (cols : List (String × List (Option ℚ))) (i : ℕ) : Bool :=
  (List.range cols.length).any (fun j =>
    match cols.get? i, cols.get? j with
    | some a, some b => corrDefinedB a.2 b.2
    | _, _ => false)

/-- Whether `corr.dropna(axis=0, how="all").dropna(axis=1, how="all")` is
empty: no row of the correlation matrix has a defined entry. -/
def corrCleanEmptyB (df : DataFrame) : Bool :=
  ((List.range ((numericBoolCols df).length)).filter
    (corrRowKeptB (numericBoolCols df))).isEmpty

/-- `sklearn.metrics.mutual_info_score(a, b)` over two label sequences of
equal length (the only way the repository calls it; the embedding truncates
to the common length to stay total): `Σ p(x,y)·log(p(x,y)/(p(x)p(y)))` over
the observed label pairs, with natural logarithm. -/
noncomputable def miScore (la lb : List (Option String)) : ℝ :=
  let n := min la.length lb.length
  let a := la.take n
  let b := lb.take n
  let vs := a.zip b
  ∑ p ∈ vs.toFinset,
    ((vs.count p : ℝ) / (n : ℝ)) *
      Real.log (((vs.count p : ℝ) * (n : ℝ)) / ((a.count p.1 : ℝ) * (b.count p.2 : ℝ)))

/-- A square matrix indexed by column labels with total entries, accessed
positionally. -/
structure MatT (β : Type) where
  idx : List String
  entry : ℕ → ℕ → β

/-- `analyzer.compute_mutual_info(df, columns)`: zero-initialised square
matrix over `columns`; each unordered pair `i < j` is computed once and
mirrored; the diagonal is left at 0. -/
noncomputable def compute_mutual_info (df : DataFrame) (columns : List String) : MatT ℝ :=
  { idx := columns
    entry := fun i j =>
      if i < j then miScore (getStrColD df (columns.getD i "")) (getStrColD df (columns.getD j ""))
      else if j < i then miScore (getStrColD df (columns.getD j "")) (getStrColD df (columns.getD i ""))
      else 0 }

/-- The artifact files `analyzer.analyze_dataset` writes into the run
directory, in write order, as a function of the frame and the requested
include set.  `correlation.csv` and `mutual_info.csv` are gated by `"csv"`,
`heatmap.png` by `"images"` and a non-empty cleaned correlation matrix,
`mutual_info.csv` additionally by the presence of categorical columns —
while `report.md` is written unconditionally. -/
def analyze_writes (df : DataFrame) (encode : Option String) (includeSet : List String) :
    Except PyErr (List String) :=
  match prepare_dataframe df encode with
  | .error e => .error e
  | .ok dfp =>
      let csvIncl := includeSet.contains "csv"
      let imgIncl := includeSet.contains "images"
      .ok ((if csvIncl then ["correlation.csv"] else []) ++
           (if imgIncl && !corrCleanEmptyB dfp then ["heatmap.png"] else []) ++
           (if !(catColNames df).isEmpty && csvIncl then ["mutual_info.csv"] else []) ++
           ["report.md"])

/-- A heap of live DataFrames; Python variables hold references (indices)
into it, so in-place column assignment is an update of one store slot. -/
abbrev Store := List DataFrame

/-- Store-level `core.encode_categorical`: `onehot` builds a brand-new frame,
`ordinal`/`label` first allocate `df.copy()` and then assign the encoded
column into the copy (the `df_copy[column] = ...` write). -/
def encode_categorical_S (s : Store) (r : ℕ) (column method : String) :
    Except PyErr (Store × ℕ) :=
  match s.get? r with
  | none => .error PyErr.keyError
  | some df =>
    if column ∈ colNames df then
      if method = "onehot" then .ok (s ++ [getDummies df column], s.length)
      else if method = "ordinal" then
        .ok ((s ++ [df]).set s.length
              (setCol df column (ordinalTransformCol (getColD df column))), s.length)
      else if method = "label" then
        .ok ((s ++ [df]).set s.length
              (setCol df column (labelTransformCol (getColD df column))), s.length)
      else .error PyErr.valueError
    else .error PyErr.keyError

/-- Store-level `analyzer._encode_all_columns`: `onehot` builds a new frame;
`ordinal`/`label` allocate `df.copy()` and then loop over the categorical
columns assigning factorize codes into the copy, one store write each. -/
def encode_all_columns_S (s : Store) (r : ℕ) (method : String) :
    Except PyErr (Store × ℕ) :=
  match s.get? r with
  | none => .error PyErr.keyError
  | some df =>
    if method = "onehot" then
      .ok (s ++ [df.filter (fun p => match p.2 with | Col.strCol _ => false | _ => true) ++
           (df.filterMap (fun p => match p.2 with
              | Col.strCol vs => some (dummyCols p.1 id vs)
              | _ => none)).flatten], s.length)
    else if method = "ordinal" ∨ method = "label" then
      .ok ((catColNames df).foldl
            (fun st c =>
              st.set s.length
                (setCol (st.getD s.length [])
                  c (Col.numCol ((factorizeCodes (getStrColD (st.getD s.length []) c)).map some))))
            (s ++ [df]), s.length)
    else .error PyErr.valueError

/-- Store-level `analyzer.compute_distributions`: a pure read. -/
def compute_distributions_S (s : Store) (r : ℕ) :
    Except PyErr (Store × List (String × DistInfo)) :=
  match s.get? r with
  | none => .error PyErr.keyError
  | some df => .ok (s, compute_distributions df)

/-- The bool→int conversion loop body of `compute_correlation_matrix`:
`numeric[c] = numeric[c].astype(int)`. -/
def boolToNumCol : Col → Col
  | Col.boolCol vs => Col.numCol (vs.map (fun b => some (if b then (1 : ℚ) else 0)))
  | c => c

/-- The numeric selection copy `df.select_dtypes(include=[np.number, "bool"]).copy()`. -/
def numericSelectFrame (df : DataFrame) : DataFrame :=
  df.filter (fun p => match p.2 with | Col.strCol _ => false | _ => true)

/-- Names of the boolean columns of a frame. -/
def boolColNames (df : DataFrame) : List String :=
  df.filterMap (fun p => match p.2 with
    | Col.boolCol _ => some p.1
    | _ => none)

/-- Store-level `analyzer.compute_correlation_matrix`: allocates the numeric
selection copy, converts its boolean columns to integers in place (one store
write per column), and returns the Pearson matrix of the original frame's
numeric view. -/
noncomputable def compute_correlation_matrix_S (s : Store) (r : ℕ) :
    Except PyErr (Store × MatO ℝ) :=
  match s.get? r with
  | none => .error PyErr.keyError
  | some df =>
      .ok ((boolColNames (numericSelectFrame df)).foldl
            (fun st c =>
              st.set s.length
                (setCol (st.getD s.length []) c (boolToNumCol (getColD (st.getD s.length []) c))))
            (s ++ [numericSelectFrame df]),
           compute_correlation_matrix df)

/-- Store-level `analyzer.compute_mutual_info`: a pure read; the optional
column list defaults to the frame's categorical columns. -/
noncomputable def compute_mutual_info_S (s : Store) (r : ℕ) (columns : Option (List String)) :
    Except PyErr (Store × MatT ℝ) :=
  match s.get? r with
  | none => .error PyErr.keyError
  | some df => .ok (s, compute_mutual_info df (columns.getD (catColNames df)))

/-- One structured observation of `analyzer._generate_conclusions` (the
Python code renders each as a formatted sentence; float formatting is kept
abstract). -/
inductive Obs (α β : Type) where
  | maxCorr (v : α) (a b : String)
  | minCorr (v : α) (a b : String)
  | weakCorrs
  | someDeps (avg : α)
  | mostSkewed (c : String) (share : ℚ)
  | highCardinality (cs : List String)
  | topMutualInfo (v : β) (a b : String)
  | recommendReduction
deriving DecidableEq

/-- The slice of the result bundle `_generate_conclusions` reads:
`results["corr"]`, `results["distributions"]`, `results["mi"]`. -/
structure ResultsBundle (α β : Type) where
  corr : Option (MatO α)
  distributions : List (String × DistInfo)
  mi : Option (MatT β)

/-- `corr_df.where(np.triu(..., k=1)).stack()`: the strict upper-triangle
entries that are present, in row-major order, labelled by their index pair. -/
def stackedUpper {α : Type} (M : MatO α) : List ((String × String) × α) :=
  ((List.range M.idx.length).map (fun i =>
    (List.range M.idx.length).filterMap (fun j =>
      if i < j then (M.entry i j).map (fun v => ((M.idx.getD i "", M.idx.getD j ""), v))
      else none))).flatten

/-- Number of rows surviving `corr_df.dropna(how="all")`: rows with at least
one present entry. -/
def keptRowCount {α : Type} (M : MatO α) : ℕ :=
  ((List.range M.idx.length).filter (fun i =>
    (List.range M.idx.length).any (fun j => (M.entry i j).isSome))).length

/-- `mi.stack()` over a total matrix: every entry in row-major order. -/
def stackedAll {β : Type} (M : MatT β) : List ((String × String) × β) :=
  ((List.range M.idx.length).map (fun i =>
    (List.range M.idx.length).map (fun j =>
      ((M.idx.getD i "", M.idx.getD j ""), M.entry i j)))).flatten

/-- `series.idxmax()` made total: the first pair attaining the maximum
value, `none` on the empty series. -/
def argmaxFirst {ι α : Type} [LinearOrder α] : List (ι × α) → Option (ι × α)
  | [] => none
  | p :: t =>
      match argmaxFirst t with
      | none => some p
      | some q => if p.2 < q.2 then some q else some p

/-- `series.idxmin()` made total: the first pair attaining the minimum
value, `none` on the empty series. -/
def argminFirst {ι α : Type} [LinearOrder α] : List (ι × α) → Option (ι × α)
  | [] => none
  | p :: t =>
      match argminFirst t with
      | none => some p
      | some q => if q.2 < p.2 then some q else some p

/-- `analyzer._generate_conclusions(results)`: correlation extremes and
average when the matrix is present, non-empty and keeps more than one row
after dropping all-NaN rows; then skew/cardinality observations; then the
top mutual-information pair; then the fixed closing recommendation. -/
def generate_conclusions {α β : Type} [LinearOrderedField α] [LinearOrder β]
    (res : ResultsBundle α β) : List (Obs α β) :=
  (match res.corr with
   | some M =>
      if M.idx ≠ [] ∧ 1 < keptRowCount M then
        (match argmaxFirst (stackedUpper M), argminFirst (stackedUpper M) with
         | some mp, some np =>
            [Obs.maxCorr mp.2 mp.1.1 mp.1.2, Obs.minCorr np.2 np.1.1 np.1.2]
         | _, _ => []) ++
        (let avgAbs : α :=
           if stackedUpper M ≠ [] then
             ((stackedUpper M).map (fun p => |p.2|)).sum / ((stackedUpper M).length : α)
           else 0
         if avgAbs < 2 / 10 then [Obs.weakCorrs] else [Obs.someDeps avgAbs])
      else []
   | none => []) ++
  (if res.distributions ≠ [] then
     (match argmaxFirst (res.distributions.map (fun p => (p.1, p.2.most_freq_share))) with
      | some sp => [Obs.mostSkewed sp.1 sp.2]
      | none => []) ++
     (let many := (res.distributions.filter (fun p => decide (10 < p.2.n_unique))).map (·.1)
      if many ≠ [] then [Obs.highCardinality many] else [])
   else []) ++
  (match res.mi with
   | some M =>
      if M.idx ≠ [] then
        match argmaxFirst (stackedAll M) with
        | some tp => [Obs.topMutualInfo tp.2 tp.1.1 tp.1.2]
        | none => []
      else []
   | none => []) ++
  [Obs.recommendReduction]

/-! ### Claim theorems -/

/-- A small concrete frame with one categorical column, used as input to
several witnesses. -/
def dfTwoColors : DataFrame := [("color", Col.strCol [some "red", some "blue"])]

/-- A concrete frame without the column `"color"`. -/
def dfNumOnly : DataFrame := [("a", Col.numCol [some 1, some 2])]

/-- Claim C1 (code divergence): running the pipeline write model with an
empty include set still writes the report document, so the run directory
does not stay empty as the specification promises. -/
theorem analyze_empty_include_still_writes_report :
    analyze_writes dfTwoColors (some "onehot") [] = .ok ["report.md"] ∧
      (["report.md"] : List String) ≠ [] := by
  constructor
  · rfl
  · decide

/-- Claim C2 counterexample: on a concrete frame with an existing column,
`encode_categorical` with method `"none"` raises `ValueError` instead of
returning the unchanged copy. -/
theorem encode_none_raises_not_noop :
    encode_categorical dfTwoColors "color" "none" = .error PyErr.valueError ∧
      (Except.error PyErr.valueError : Except PyErr DataFrame) ≠ .ok dfTwoColors := by
  constructor
  · rfl
  · simp

/-- Claim C2 (amended): for every frame and existing column, the single
column encode with method `"none"` raises the unsupported-method
`ValueError`; the `none` no-op is implemented by the caller
`prepare_dataframe`, which skips encoding and passes the copy through. -/
theorem encode_none_errors_prepare_noop (df : DataFrame) (c : String)
    (h : c ∈ colNames df) :
    encode_categorical df c "none" = .error PyErr.valueError ∧
      prepare_dataframe df (some "none") = .ok df := by
  constructor
  · simp [encode_categorical, h]
  · simp [prepare_dataframe]

/-- Witness for the amended claim C2 at a concrete frame. -/
theorem encode_none_errors_prepare_noop_witness :
    encode_categorical dfTwoColors "color" "none" = .error PyErr.valueError ∧
      prepare_dataframe dfTwoColors (some "none") = .ok dfTwoColors :=
  encode_none_errors_prepare_noop dfTwoColors "color" (by decide)

/-- Claim C4: encoding an absent column fails with `KeyError` while
validating an absent column fails with `ValueError`, and the two error
kinds are distinct. -/
theorem absent_column_error_kinds (df : DataFrame) (c m : String)
    (h : c ∉ colNames df) :
    encode_categorical df c m = .error PyErr.keyError ∧
      validate_category_column df c = .error PyErr.valueError ∧
      PyErr.keyError ≠ PyErr.valueError := by
  refine ⟨?_, ?_, by decide⟩
  · simp [encode_categorical, h]
  · simp [validate_category_column, h]

/-- Witness for claim C4 at a concrete frame lacking the column. -/
theorem absent_column_error_kinds_witness :
    encode_categorical dfNumOnly "color" "onehot" = .error PyErr.keyError ∧
      validate_category_column dfNumOnly "color" = .error PyErr.valueError :=
  ⟨(absent_column_error_kinds dfNumOnly "color" "onehot" (by decide)).1,
   (absent_column_error_kinds dfNumOnly "color" "onehot" (by decide)).2.1⟩

/-- Claim C10: in `encode_categorical` the missing-column check precedes the
method check — an absent column yields `KeyError` whatever the method, and a
`ValueError` can only arise for a column that exists. -/
theorem missing_column_check_precedes_method (df : DataFrame) (c m : String) :
    (c ∉ colNames df → encode_categorical df c m = .error PyErr.keyError) ∧
      (encode_categorical df c m = .error PyErr.valueError → c ∈ colNames df) := by
  constructor
  · intro h
    simp [encode_categorical, h]
  · intro h
    by_contra hmem
    simp [encode_categorical, hmem] at h

/-- Witness for claim C10: an absent column with an unrecognized method
still yields `KeyError`, not `ValueError`. -/
theorem missing_column_check_precedes_method_witness :
    encode_categorical dfNumOnly "color" "bogus" = .error PyErr.keyError :=
  (missing_column_check_precedes_method dfNumOnly "color" "bogus").1 (by decide)

/-! ### Helper lemmas about index-of, first-seen order and sorted order -/

lemma idxOf_cons {α : Type} [DecidableEq α] (a : α) (l : List α) (v : α) :
    idxOf (a :: l) v = if a = v then 0 else idxOf l v + 1 := by
  by_cases h : a = v <;> simp [idxOf, List.findIdx_cons, h]

lemma idxOf_append_left {α : Type} [DecidableEq α] {s : List α} (t : List α) {v : α}
    (h : v ∈ s) : idxOf (s ++ t) v = idxOf s v := by
  induction s with
  | nil => cases h
  | cons a s ih =>
    rw [List.cons_append, idxOf_cons, idxOf_cons]
    by_cases hv : a = v
    · simp [hv]
    · have hmem : v ∈ s := by
        rcases List.mem_cons.mp h with h1 | h1
        · exact absurd h1.symm hv
        · exact h1
      simp [hv, ih hmem]

lemma idxOf_append_self {α : Type} [DecidableEq α] {s : List α} {v : α}
    (h : v ∉ s) (t : List α) : idxOf (s ++ v :: t) v = s.length := by
  induction s with
  | nil => simp [idxOf_cons]
  | cons a s ih =>
    have ha : a ≠ v := fun hav => h (hav ▸ List.mem_cons_self a s)
    have hs : v ∉ s := fun hvs => h (List.mem_cons_of_mem a hvs)
    rw [List.cons_append, idxOf_cons, if_neg ha, ih hs, List.length_cons]

lemma extendFirstSeen_cons {α : Type} [DecidableEq α] (acc : List α) (v : α) (l : List α) :
    extendFirstSeen acc (v :: l) =
      extendFirstSeen (if v ∈ acc then acc else acc ++ [v]) l := rfl

lemma extendFirstSeen_suffix {α : Type} [DecidableEq α] (acc l : List α) :
    ∃ t, extendFirstSeen acc l = acc ++ t := by
  induction l generalizing acc with
  | nil => exact ⟨[], by simp [extendFirstSeen]⟩
  | cons v l ih =>
    rw [extendFirstSeen_cons]
    by_cases h : v ∈ acc
    · rw [if_pos h]; exact ih acc
    · rw [if_neg h]
      obtain ⟨t, ht⟩ := ih (acc ++ [v])
      exact ⟨v :: t, by rw [ht, List.append_assoc]; rfl⟩

lemma mem_extendFirstSeen {α : Type} [DecidableEq α] {v : α} (acc l : List α) :
    v ∈ extendFirstSeen acc l ↔ v ∈ acc ∨ v ∈ l := by
  induction l generalizing acc with
  | nil => simp [extendFirstSeen]
  | cons a l ih =>
    rw [extendFirstSeen_cons]
    by_cases h : a ∈ acc
    · rw [if_pos h, ih]
      constructor
      · rintro (h1 | h1)
        · exact Or.inl h1
        · exact Or.inr (List.mem_cons_of_mem a h1)
      · rintro (h1 | h1)
        · exact Or.inl h1
        · rcases List.mem_cons.mp h1 with h2 | h2
          · exact Or.inl (h2 ▸ h)
          · exact Or.inr h2
    · rw [if_neg h, ih]
      simp only [List.mem_append, List.mem_singleton, List.mem_cons]
      tauto

lemma mem_firstSeen {α : Type} [DecidableEq α] {v : α} (l : List α) :
    v ∈ firstSeen l ↔ v ∈ l := by
  rw [firstSeen, mem_extendFirstSeen]
  simp

lemma nodup_extendFirstSeen {α : Type} [DecidableEq α] (acc l : List α)
    (hnd : acc.Nodup) : (extendFirstSeen acc l).Nodup := by
  induction l generalizing acc with
  | nil => exact hnd
  | cons a l ih =>
    rw [extendFirstSeen_cons]
    by_cases h : a ∈ acc
    · rw [if_pos h]; exact ih acc hnd
    · rw [if_neg h]
      refine ih _ ?_
      simp [List.nodup_append, hnd, h]

lemma nodup_firstSeen {α : Type} [DecidableEq α] (l : List α) : (firstSeen l).Nodup :=
  nodup_extendFirstSeen [] l List.nodup_nil

lemma idxOf_sorted_eq_countP {α : Type} [LinearOrder α] [DecidableEq α] {l : List α}
    (hs : l.Sorted (· ≤ ·)) (hnd : l.Nodup) {v : α} (hv : v ∈ l) :
    idxOf l v = l.countP (fun u => decide (u < v)) := by
  induction l with
  | nil => cases hv
  | cons a l ih =>
    rw [idxOf_cons, List.countP_cons]
    by_cases h : a = v
    · subst h
      have hle := (List.sorted_cons.mp hs).1
      have h0 : l.countP (fun u => decide (u < a)) = 0 := by
        rw [List.countP_eq_zero]
        intro u hu
        simp only [decide_eq_true_eq]
        exact not_lt.mpr (hle u hu)
      simp [h0]
    · have hvl : v ∈ l := by
        rcases List.mem_cons.mp hv with h1 | h1
        · exact absurd h1.symm h
        · exact h1
      have ha : a < v := lt_of_le_of_ne ((List.sorted_cons.mp hs).1 v hvl) h
      rw [if_neg h, ih (List.sorted_cons.mp hs).2 hnd.of_cons hvl]
      simp [ha]

lemma factorizeGo_eq {α : Type} [DecidableEq α] (l : List (Option α)) (seen : List α) :
    factorizeGo l seen = l.map (fun o => match o with
      | none => (-1 : ℚ)
      | some v => (idxOf (extendFirstSeen seen (l.filterMap id)) v : ℚ)) := by
  induction l generalizing seen with
  | nil => rfl
  | cons o l ih =>
    cases o with
    | none =>
      have hfm : ((none : Option α) :: l).filterMap id = l.filterMap id := by simp
      rw [List.map_cons, hfm, factorizeGo, ih seen]
    | some v =>
      have hfm : ((some v : Option α) :: l).filterMap id = v :: l.filterMap id := by simp
      rw [List.map_cons, hfm, extendFirstSeen_cons, factorizeGo]
      by_cases h : v ∈ seen
      · rw [if_pos h, if_pos h, ih seen]
        obtain ⟨t, ht⟩ := extendFirstSeen_suffix seen (l.filterMap id)
        have hhead : idxOf (extendFirstSeen seen (l.filterMap id)) v = idxOf seen v := by
          rw [ht, idxOf_append_left t h]
        simp [hhead]
      · rw [if_neg h, if_neg h, ih (seen ++ [v])]
        obtain ⟨t, ht⟩ := extendFirstSeen_suffix (seen ++ [v]) (l.filterMap id)
        have hhead : idxOf (extendFirstSeen (seen ++ [v]) (l.filterMap id)) v = seen.length := by
          rw [ht, idxOf_append_left t (by simp), idxOf_append_self h]
        simp [hhead]

lemma factorizeCodes_eq_firstSeenCodes {α : Type} [DecidableEq α]
    (vs : List (Option α)) : factorizeCodes vs = firstSeenCodes vs := by
  rw [factorizeCodes, firstSeenCodes, factorizeGo_eq vs []]
  rfl

lemma ordinalCodes_eq_sortedRankCodes {α : Type} [LinearOrder α] [DecidableEq α]
    (vs : List (Option α)) : ordinalCodes vs = sortedRankCodes vs := by
  rw [ordinalCodes, sortedRankCodes]
  apply List.map_congr_left
  intro o ho
  cases o with
  | none => rfl
  | some v =>
    simp only [Option.map_some']
    have hv : v ∈ vs.filterMap id := List.mem_filterMap.mpr ⟨some v, ho, rfl⟩
    have hperm : (sortDedup (vs.filterMap id)).Perm (firstSeen (vs.filterMap id)) :=
      List.perm_insertionSort _ _
    have hvs : v ∈ sortDedup (vs.filterMap id) :=
      hperm.mem_iff.mpr ((mem_firstSeen _).mpr hv)
    have hnd : (sortDedup (vs.filterMap id)).Nodup :=
      hperm.nodup_iff.mpr (nodup_firstSeen _)
    have hsorted : (sortDedup (vs.filterMap id)).Sorted (· ≤ ·) :=
      List.sorted_insertionSort _ _
    congr 1
    rw [idxOf_sorted_eq_countP hsorted hnd hvs]
    exact_mod_cast hperm.countP_eq _

/-! ### Column-lookup lemmas -/

lemma getCol_map_col (f : Col → Col) (df : DataFrame) (c : String) :
    getCol (df.map (fun p => (p.1, f p.2))) c = (getCol df c).map f := by
  induction df with
  | nil => rfl
  | cons p df ih =>
    by_cases h : p.1 = c
    · simp [getCol, List.find?_cons, h]
    · simpa [getCol, List.find?_cons, h] using ih

lemma getCol_setCol_self (df : DataFrame) (c : String) (col : Col)
    (h : c ∈ colNames df) : getCol (setCol df c col) c = some col := by
  induction df with
  | nil => cases h
  | cons p df ih =>
    by_cases hp : p.1 = c
    · simp [setCol, getCol, List.find?_cons, hp]
    · have h2 : c ∈ colNames df := by
        rcases List.mem_cons.mp h with h1 | h1
        · exact absurd h1.symm hp
        · exact h1
      simpa [setCol, getCol, List.find?_cons, hp] using ih h2

lemma getCol_mem (df : DataFrame) (c : String) (col : Col)
    (h : getCol df c = some col) : c ∈ colNames df := by
  rw [getCol] at h
  cases hf : df.find? (fun p => p.1 = c) with
  | none => rw [hf] at h; cases h
  | some q =>
      have hq : q.1 = c := by
        have := List.find?_some hf
        simpa using this
      have hqm : q ∈ df := List.mem_of_find?_eq_some hf
      exact hq ▸ List.mem_map_of_mem (·.1) hqm

/-- The per-column transform performed by the bulk ordinal (and label)
encode: factorize codes for categorical columns, identity elsewhere. -/
def bulkOrdCol : Col → Col
  | Col.strCol vs => Col.numCol ((factorizeCodes vs).map some)
  | c => c

lemma encode_all_columns_ordinal_eq (df : DataFrame) :
    encode_all_columns df "ordinal" = .ok (df.map (fun p => (p.1, bulkOrdCol p.2))) := by
  have hmap : (df.map (fun p => match p.2 with
      | Col.strCol vs => (p.1, Col.numCol ((factorizeCodes vs).map some))
      | _ => p)) = df.map (fun p => (p.1, bulkOrdCol p.2)) := by
    apply List.map_congr_left
    intro p _
    rcases p with ⟨a, c⟩
    cases c <;> rfl
  simp only [encode_all_columns, String.reduceEq, if_false, if_true, reduceIte]
  rw [hmap]

/-- Claim C3 counterexample: on the column `["red", "blue"]` the single
column ordinal encode produces codes `[1, 0]` (sorted category order), not
the first-seen codes `[0, 1]` the claim asserts. -/
theorem single_ordinal_not_first_seen :
    encode_categorical dfTwoColors "color" "ordinal" =
        .ok [("color", Col.numCol [some 1, some 0])] ∧
      Col.numCol [some 1, some 0] ≠
        Col.numCol ((firstSeenCodes [some "red", some "blue"]).map some) := by
  constructor
  · have hs : sortDedup ["red", "blue"] = ["blue", "red"] := by
      simp [sortDedup, firstSeen, extendFirstSeen, List.insertionSort, List.orderedInsert]
      decide
    simp [encode_categorical, dfTwoColors, colNames, setCol, getColD, getCol,
      ordinalTransformCol, ordinalCodes, hs, idxOf, List.findIdx, List.findIdx.go]
  · decide

/-- Claim C3 (amended): bulk ordinal encoding assigns first-seen codes
starting at 0 (missing cells get -1), while the single-column ordinal
encode assigns each value the number of distinct column values strictly
below it, i.e. ascending sorted-category codes starting at 0. -/
theorem ordinal_bulk_first_seen_single_sorted (df : DataFrame) (c : String)
    (vs : List (Option String)) (h : getCol df c = some (Col.strCol vs)) :
    (∃ df2, encode_all_columns df "ordinal" = .ok df2 ∧
        getCol df2 c = some (Col.numCol ((firstSeenCodes vs).map some))) ∧
    (∃ df1, encode_categorical df c "ordinal" = .ok df1 ∧
        getCol df1 c = some (Col.numCol (sortedRankCodes vs))) := by
  constructor
  · refine ⟨df.map (fun p => (p.1, bulkOrdCol p.2)), encode_all_columns_ordinal_eq df, ?_⟩
    rw [getCol_map_col, h]
    simp [bulkOrdCol, factorizeCodes_eq_firstSeenCodes]
  · have hmem : c ∈ colNames df := getCol_mem df c _ h
    refine ⟨setCol df c (ordinalTransformCol (getColD df c)), ?_, ?_⟩
    · simp [encode_categorical, hmem]
    · rw [getCol_setCol_self df c _ hmem]
      rw [getColD, h]
      simp [ordinalTransformCol, ordinalCodes_eq_sortedRankCodes]

/-- Witness for the amended claim C3 at a concrete two-value column. -/
theorem ordinal_bulk_first_seen_single_sorted_witness :
    (∃ df2, encode_all_columns dfTwoColors "ordinal" = .ok df2 ∧
        getCol df2 "color" =
          some (Col.numCol ((firstSeenCodes [some "red", some "blue"]).map some))) ∧
    (∃ df1, encode_categorical dfTwoColors "color" "ordinal" = .ok df1 ∧
        getCol df1 "color" =
          some (Col.numCol (sortedRankCodes [some "red", some "blue"]))) :=
  ordinal_bulk_first_seen_single_sorted dfTwoColors "color"
    [some "red", some "blue"] rfl

/-! ### One-hot encoding lemmas -/

/-- The 0/1 number a boolean indicator cell carries (the `astype(int)`
reading used downstream by the correlation step). -/
def boolToQ (b : Bool) : ℚ := if b then 1 else 0

/-- The per-row sum of the indicator columns of a one-hot block. -/
def dummyRowSum (cols : List (String × Col)) (i : ℕ) : ℚ :=
  (cols.map (fun p => match p.2 with
    | Col.boolCol bs => boolToQ (bs.getD i false)
    | _ => 0)).sum

lemma sum_indicator_nodup {α : Type} [DecidableEq α] {l : List α} (hnd : l.Nodup)
    (v₀ : α) :
    (l.map (fun v => if v = v₀ then (1 : ℚ) else 0)).sum = if v₀ ∈ l then 1 else 0 := by
  induction l with
  | nil => simp
  | cons a l ih =>
    rw [List.map_cons, List.sum_cons, ih hnd.of_cons]
    by_cases ha : a = v₀
    · subst ha
      have hnot : a ∉ l := (List.nodup_cons.mp hnd).1
      simp [hnot]
    · have hne : v₀ ≠ a := fun h => ha h.symm
      simp [ha, List.mem_cons, hne]

lemma boolToQ_decide (P : Prop) [Decidable P] :
    boolToQ (decide P) = if P then (1 : ℚ) else 0 := by
  by_cases h : P <;> simp [boolToQ, h]

lemma sortDedup_perm_firstSeen {α : Type} [LinearOrder α] [DecidableEq α] (l : List α) :
    (sortDedup l).Perm (firstSeen l) := List.perm_insertionSort _ _

lemma mem_sortDedup {α : Type} [LinearOrder α] [DecidableEq α] {v : α} (l : List α) :
    v ∈ sortDedup l ↔ v ∈ l := by
  rw [(sortDedup_perm_firstSeen l).mem_iff, mem_firstSeen]

lemma nodup_sortDedup {α : Type} [LinearOrder α] [DecidableEq α] (l : List α) :
    (sortDedup l).Nodup :=
  (sortDedup_perm_firstSeen l).nodup_iff.mpr (nodup_firstSeen l)

/-- Claim C5 (amended): one-hot encoding an existing categorical column
produces one indicator column per distinct non-missing value, removes the
source column, keeps every indicator cell 0/1, and makes each row's
indicator sum equal 1 when the row's source cell is present and 0 when it
is missing. -/
theorem onehot_block_properties (df : DataFrame) (c : String) (vs : List (Option String))
    (h : getCol df c = some (Col.strCol vs)) :
    encode_categorical df c "onehot" = .ok (getDummies df c) ∧
    getDummies df c = df.filter (fun p => decide (p.1 ≠ c)) ++ dummyCols c id vs ∧
    (dummyCols c id vs).length = (firstSeen (vs.filterMap id)).length ∧
    c ∉ colNames (getDummies df c) ∧
    (∀ p ∈ dummyCols c id vs, ∃ bs, p.2 = Col.boolCol bs ∧
      ∀ b ∈ bs, boolToQ b = 0 ∨ boolToQ b = 1) ∧
    (∀ i, i < vs.length →
      dummyRowSum (dummyCols c id vs) i =
        if (vs.getD i none).isSome then (1 : ℚ) else 0) := by
  have hmem : c ∈ colNames df := getCol_mem df c _ h
  have hD : getDummies df c = df.filter (fun p => decide (p.1 ≠ c)) ++ dummyCols c id vs := by
    rw [getDummies, getColD, h]
    rfl
  refine ⟨by simp [encode_categorical, hmem], hD, ?_, ?_, ?_, ?_⟩
  · simp only [dummyCols, List.length_map]
    exact (sortDedup_perm_firstSeen _).length_eq
  · intro hc
    rw [hD, colNames, List.map_append] at hc
    rcases List.mem_append.mp hc with hc1 | hc1
    · rcases List.mem_map.mp hc1 with ⟨p, hp, hpc⟩
      have : p.1 ≠ c := by simpa using (List.mem_filter.mp hp).2
      exact this hpc
    · rcases List.mem_map.mp hc1 with ⟨p, hp, hpc⟩
      rcases List.mem_map.mp hp with ⟨v, _, hv⟩
      rw [← hv] at hpc
      have hlen := congrArg String.length hpc
      simp only [String.length_append] at hlen
      have h1 : ("_" : String).length = 1 := rfl
      omega
  · intro p hp
    rcases List.mem_map.mp hp with ⟨v, _, hv⟩
    refine ⟨vs.map (fun o => decide (o = some v)), by rw [← hv], ?_⟩
    intro b _
    cases b <;> simp [boolToQ]
  · intro i hi
    have hgetD : vs.getD i none = vs[i] := by
      rw [List.getD_eq_getElem?_getD, List.getElem?_eq_getElem hi]
      rfl
    have hcell : ∀ v : String,
        (vs.map (fun o => decide (o = some v))).getD i false = decide (vs[i] = some v) := by
      intro v
      rw [List.getD_eq_getElem?_getD, List.getElem?_map, List.getElem?_eq_getElem hi]
      rfl
    have hsum : dummyRowSum (dummyCols c id vs) i =
        ((sortDedup (vs.filterMap id)).map
          (fun v => if vs[i] = some v then (1 : ℚ) else 0)).sum := by
      rw [dummyRowSum, dummyCols, List.map_map]
      congr 1
      apply List.map_congr_left
      intro v _
      simp only [Function.comp]
      rw [hcell v, boolToQ_decide]
    rw [hsum, hgetD]
    cases hvi : vs[i] with
    | none => simp
    | some v₀ =>
        have hmemv : v₀ ∈ sortDedup (vs.filterMap id) := by
          rw [mem_sortDedup]
          exact List.mem_filterMap.mpr ⟨some v₀, by rw [← hvi]; exact List.getElem_mem hi, rfl⟩
        have hz : ((sortDedup (vs.filterMap id)).map
            (fun v => if some v₀ = some v then (1 : ℚ) else 0)).sum =
            ((sortDedup (vs.filterMap id)).map
              (fun v => if v = v₀ then (1 : ℚ) else 0)).sum := by
          congr 1
          apply List.map_congr_left
          intro v _
          simp [eq_comm]
        rw [hz, sum_indicator_nodup (nodup_sortDedup _) v₀, if_pos hmemv]
        simp

/-- Witness for the amended claim C5 at a concrete two-value column. -/
theorem onehot_block_properties_witness :
    encode_categorical dfTwoColors "color" "onehot" = .ok (getDummies dfTwoColors "color") ∧
      (dummyCols "color" id [some "red", some "blue"]).length =
        (firstSeen (([some "red", some "blue"] : List (Option String)).filterMap id)).length ∧
      dummyRowSum (dummyCols "color" id [some "red", some "blue"]) 0 =
        if (([some "red", some "blue"] : List (Option String)).getD 0 none).isSome
        then (1 : ℚ) else 0 :=
  ⟨(onehot_block_properties dfTwoColors "color" [some "red", some "blue"] rfl).1,
   (onehot_block_properties dfTwoColors "color" [some "red", some "blue"] rfl).2.2.1,
   (onehot_block_properties dfTwoColors "color" [some "red", some "blue"] rfl).2.2.2.2.2
     0 (by decide)⟩

/-- Claim C5 counterexample: one-hot encoding the column
`["red", missing]` yields an all-zero indicator row for the missing cell,
so the per-row indicator sum is 0, not 1, for that row. -/
theorem onehot_missing_row_sum_zero :
    dummyRowSum (dummyCols "color" id [some "red", none]) 1 = 0 ∧
      ¬ (∀ i, i < 2 → dummyRowSum (dummyCols "color" id [some "red", none]) i = 1) := by
  have h1 : dummyRowSum (dummyCols "color" id [some "red", none]) 1 = 0 := by
    simp [dummyRowSum, dummyCols, sortDedup, firstSeen, extendFirstSeen,
      List.insertionSort, List.orderedInsert, boolToQ]
  refine ⟨h1, fun hall => ?_⟩
  have h2 := hall 1 (by norm_num)
  rw [h1] at h2
  exact absurd h2 (by norm_num)

/-! ### Correlation lemmas -/

lemma pairedRows_swap (x y : List (Option ℚ)) :
    pairedRows y x = (pairedRows x y).map Prod.swap := by
  induction x generalizing y with
  | nil => cases y <;> rfl
  | cons a x ih =>
    cases y with
    | nil => rfl
    | cons b y =>
      cases a <;> cases b <;> simp [pairedRows, List.zip_cons_cons, List.filterMap_cons] <;>
        simpa [pairedRows] using ih y

lemma sProd_map_swap (ps : List (ℚ × ℚ)) :
    sProd (ps.map Prod.swap) = sProd ps := by
  simp only [sProd, List.map_map]
  have h1 : (Prod.fst ∘ Prod.swap : ℚ × ℚ → ℚ) = Prod.snd := rfl
  have h2 : (Prod.snd ∘ Prod.swap : ℚ × ℚ → ℚ) = Prod.fst := rfl
  rw [h1, h2]
  congr 1
  apply List.map_congr_left
  intro p _
  simp only [Function.comp_apply, Prod.fst_swap, Prod.snd_swap]
  ring

lemma sxxOf_map_swap (ps : List (ℚ × ℚ)) : sxxOf (ps.map Prod.swap) = syyOf ps := by
  simp only [sxxOf, syyOf, List.map_map]
  rfl

lemma syyOf_map_swap (ps : List (ℚ × ℚ)) : syyOf (ps.map Prod.swap) = sxxOf ps := by
  simp only [sxxOf, syyOf, List.map_map]
  rfl

lemma corrDefinedB_symm (x y : List (Option ℚ)) :
    corrDefinedB y x = corrDefinedB x y := by
  rw [corrDefinedB, corrDefinedB, pairedRows_swap x y]
  apply decide_eq_decide.mpr
  rw [sxxOf_map_swap, syyOf_map_swap]
  constructor
  · rintro ⟨h1, h2, h3⟩
    exact ⟨fun h => h1 (by rw [h]; rfl), h3, h2⟩
  · rintro ⟨h1, h2, h3⟩
    exact ⟨fun h => h1 (List.map_eq_nil_iff.mp h), h3, h2⟩

lemma pearsonEntry_symm (x y : List (Option ℚ)) :
    pearsonEntry y x = pearsonEntry x y := by
  rw [pearsonEntry, pearsonEntry, corrDefinedB_symm x y, pairedRows_swap x y,
    sProd_map_swap, sxxOf_map_swap, syyOf_map_swap, mul_comm]

lemma pairedRows_self (v : List (Option ℚ)) :
    pairedRows v v = (v.filterMap id).map (fun a => (a, a)) := by
  induction v with
  | nil => rfl
  | cons o v ih =>
    cases o <;> simp [pairedRows, List.zip_cons_cons, List.filterMap_cons] <;>
      simpa [pairedRows] using ih

lemma sxxOf_nonneg (ps : List (ℚ × ℚ)) : 0 ≤ sxxOf ps := by
  rw [sxxOf]
  refine List.sum_nonneg fun x hx => ?_
  rcases List.mem_map.mp hx with ⟨p, _, hval⟩
  rw [← hval]
  exact sq_nonneg _

lemma pearsonEntry_diag (v : List (Option ℚ)) (h : sumSq v ≠ 0) :
    pearsonEntry v v = some 1 := by
  have hxx : sxxOf (pairedRows v v) = sumSq v := rfl
  have hsp : sProd (pairedRows v v) = sumSq v := by
    show sProd (pairedRows v v) = sxxOf (pairedRows v v)
    conv_lhs => rw [pairedRows_self]
    conv_rhs => rw [pairedRows_self]
    simp only [sProd, sxxOf, List.map_map]
    congr 1
    apply List.map_congr_left
    intro a _
    simp only [Function.comp_apply]
    rw [pow_two]
    rfl
  have hyy : syyOf (pairedRows v v) = sumSq v := by
    show syyOf (pairedRows v v) = sxxOf (pairedRows v v)
    conv_lhs => rw [pairedRows_self]
    conv_rhs => rw [pairedRows_self]
    simp only [syyOf, sxxOf, List.map_map]
    rfl
  have hne : pairedRows v v ≠ [] := by
    intro hnil
    apply h
    rw [← hxx, hnil]
    rfl
  have hcond : corrDefinedB v v = true := by
    rw [corrDefinedB]
    simp only [decide_eq_true_eq]
    exact ⟨hne, by rw [hxx]; exact h, by rw [hyy]; exact h⟩
  rw [pearsonEntry, if_pos hcond, hsp, hxx, hyy]
  have hpos : (0 : ℝ) < ((sumSq v : ℚ) : ℝ) := by
    have hnn : (0 : ℚ) ≤ sumSq v := by rw [← hxx]; exact sxxOf_nonneg _
    have : (0 : ℚ) < sumSq v := lt_of_le_of_ne hnn (Ne.symm h)
    exact_mod_cast this
  rw [Real.sqrt_mul_self hpos.le, div_self hpos.ne']

/-- A concrete frame with one numeric column of nonzero variance. -/
def dfNumThree : DataFrame := [("x", Col.numCol [some 0, some 1, some 2])]

/-- Claim C6: the correlation matrix is indexed by the frame's numeric and
boolean columns (hence square), symmetric, carries 1.0 on the diagonal for
every column of nonzero variance, and is empty when the frame has no
numeric or boolean column. -/
theorem corr_matrix_props (df : DataFrame) :
    (compute_correlation_matrix df).idx = (numericBoolCols df).map (·.1) ∧
    (∀ i j, (compute_correlation_matrix df).entry i j =
      (compute_correlation_matrix df).entry j i) ∧
    (∀ i p, (numericBoolCols df).get? i = some p → sumSq p.2 ≠ 0 →
      (compute_correlation_matrix df).entry i i = some 1) ∧
    (numericBoolCols df = [] → (compute_correlation_matrix df).idx = []) := by
  refine ⟨rfl, ?_, ?_, ?_⟩
  · intro i j
    cases hi : (numericBoolCols df).get? i <;> cases hj : (numericBoolCols df).get? j <;>
      simp only [compute_correlation_matrix, hi, hj]
    exact pearsonEntry_symm _ _
  · intro i p hp hvar
    simp only [compute_correlation_matrix, hp]
    exact pearsonEntry_diag p.2 hvar
  · intro h0
    simp [compute_correlation_matrix, h0]

/-- Witness for claim C6 at a one-column numeric frame with variance 2. -/
theorem corr_matrix_props_witness :
    (compute_correlation_matrix dfNumThree).entry 0 0 = some 1 ∧
      (compute_correlation_matrix dfNumThree).idx = ["x"] := by
  constructor
  · refine (corr_matrix_props dfNumThree).2.2.1 0 ("x", [some 0, some 1, some 2]) rfl ?_
    simp [sumSq, sxxOf, pairedRows, qMean]
    norm_num
  · rw [(corr_matrix_props dfNumThree).1]
    rfl

/-! ### Mutual-information lemmas -/

lemma count_zip_le_left (la lb : List (Option String)) (a b : Option String) :
    (la.zip lb).count (a, b) ≤ la.count a := by
  induction la generalizing lb with
  | nil => simp
  | cons x la ih =>
    cases lb with
    | nil => simp
    | cons y lb =>
      rw [List.zip_cons_cons, List.count_cons, List.count_cons]
      have := ih lb
      by_cases h1 : (x, y) = (a, b)
      · obtain ⟨hx, hy⟩ := Prod.mk.injEq x y a b ▸ h1
        subst hx
        subst hy
        simp only [beq_self_eq_true, if_true]
        omega
      · by_cases hx : x = a
        · subst hx
          simp only [beq_self_eq_true, if_true, beq_iff_eq, h1, if_false]
          omega
        · simp only [beq_iff_eq, h1, hx, if_false]
          omega

lemma count_zip_le_right (la lb : List (Option String)) (a b : Option String) :
    (la.zip lb).count (a, b) ≤ lb.count b := by
  induction la generalizing lb with
  | nil => simp
  | cons x la ih =>
    cases lb with
    | nil => simp
    | cons y lb =>
      rw [List.zip_cons_cons, List.count_cons, List.count_cons]
      have := ih lb
      by_cases h1 : (x, y) = (a, b)
      · obtain ⟨hx, hy⟩ := Prod.mk.injEq x y a b ▸ h1
        subst hx
        subst hy
        simp only [beq_self_eq_true, if_true]
        omega
      · by_cases hy : y = b
        · subst hy
          simp only [beq_self_eq_true, if_true, beq_iff_eq, h1, if_false]
          omega
        · simp only [beq_iff_eq, h1, hy, if_false]
          omega

lemma list_toFinset_sum_count {α : Type} [BEq α] [LawfulBEq α] [DecidableEq α] (l : List α) :
    ∑ p ∈ l.toFinset, l.count p = l.length := by
  induction l with
  | nil => simp
  | cons a l ih =>
    rw [List.toFinset_cons]
    by_cases h : a ∈ l.toFinset
    · rw [Finset.insert_eq_self.mpr h]
      calc ∑ p ∈ l.toFinset, (a :: l).count p
          = ∑ p ∈ l.toFinset, (l.count p + if p = a then 1 else 0) := by
            apply Finset.sum_congr rfl
            intro p _
            rw [List.count_cons]
            by_cases hpa : p = a
            · subst hpa
              simp
            · have hne : ¬ (a == p) = true := by
                simp only [beq_iff_eq]
                exact fun hh => hpa hh.symm
              simp [hpa, hne]
        _ = l.length + 1 := by
            rw [Finset.sum_add_distrib, ih, Finset.sum_ite_eq' l.toFinset a (fun _ => 1),
              if_pos h]
        _ = (a :: l).length := by simp
    · rw [Finset.sum_insert h]
      have hnotmem : a ∉ l := fun hm => h (List.mem_toFinset.mpr hm)
      have hca : (a :: l).count a = 1 := by
        rw [List.count_cons, List.count_eq_zero.mpr hnotmem]
        simp
      have hrest : ∑ p ∈ l.toFinset, (a :: l).count p = ∑ p ∈ l.toFinset, l.count p := by
        apply Finset.sum_congr rfl
        intro p hp
        rw [List.count_cons]
        have : ¬ a == p := by
          simp only [beq_iff_eq]
          intro hh
          exact h (hh ▸ hp)
        simp [this]
      rw [hca, hrest, ih]
      simp [Nat.add_comm]

lemma mi_sum_nonneg (a b : List (Option String)) (h : a.length = b.length) :
    0 ≤ ∑ p ∈ (a.zip b).toFinset,
      (((a.zip b).count p : ℝ) / (a.length : ℝ)) *
        Real.log ((((a.zip b).count p : ℝ) * (a.length : ℝ)) /
          ((a.count p.1 : ℝ) * (b.count p.2 : ℝ))) := by
  by_cases hS : a.zip b = []
  · simp [hS]
  have hvlen : (a.zip b).length = a.length := by
    rw [List.length_zip, h, min_self]
  have hn : 0 < a.length := by
    have := List.length_pos.mpr hS
    omega
  have hnR : (0 : ℝ) < (a.length : ℝ) := by exact_mod_cast hn
  have key : ∀ p ∈ (a.zip b).toFinset,
      ((a.zip b).count p : ℝ) / (a.length : ℝ) -
          ((a.count p.1 : ℝ) * (b.count p.2 : ℝ)) / ((a.length : ℝ) * (a.length : ℝ)) ≤
        (((a.zip b).count p : ℝ) / (a.length : ℝ)) *
          Real.log ((((a.zip b).count p : ℝ) * (a.length : ℝ)) /
            ((a.count p.1 : ℝ) * (b.count p.2 : ℝ))) := by
    intro p hp
    have hpm : p ∈ a.zip b := List.mem_toFinset.mp hp
    have hcp : 0 < (a.zip b).count p := List.count_pos_iff.mpr hpm
    have hca : 0 < a.count p.1 := by
      have h1 := count_zip_le_left a b p.1 p.2
      have h2 : (a.zip b).count (p.1, p.2) = (a.zip b).count p := by rw [Prod.mk.eta]
      omega
    have hcb : 0 < b.count p.2 := by
      have h1 := count_zip_le_right a b p.1 p.2
      have h2 : (a.zip b).count (p.1, p.2) = (a.zip b).count p := by rw [Prod.mk.eta]
      omega
    have hcpR : (0 : ℝ) < ((a.zip b).count p : ℝ) := by exact_mod_cast hcp
    have hcaR : (0 : ℝ) < (a.count p.1 : ℝ) := by exact_mod_cast hca
    have hcbR : (0 : ℝ) < (b.count p.2 : ℝ) := by exact_mod_cast hcb
    set cp : ℝ := ((a.zip b).count p : ℝ)
    set ca : ℝ := (a.count p.1 : ℝ)
    set cb : ℝ := (b.count p.2 : ℝ)
    set n : ℝ := (a.length : ℝ)
    have hlog : Real.log ((ca * cb) / (cp * n)) ≤ (ca * cb) / (cp * n) - 1 :=
      Real.log_le_sub_one_of_pos (by positivity)
    have hlog2 : 1 - (ca * cb) / (cp * n) ≤ Real.log ((cp * n) / (ca * cb)) := by
      have hinv : (cp * n) / (ca * cb) = ((ca * cb) / (cp * n))⁻¹ := by
        rw [inv_div]
      rw [hinv, Real.log_inv]
      linarith
    have hstep : cp / n - (ca * cb) / (n * n) = (cp / n) * (1 - (ca * cb) / (cp * n)) := by
      field_simp
      ring
    rw [hstep]
    exact mul_le_mul_of_nonneg_left hlog2 (by positivity)
  have hsum := Finset.sum_le_sum key
  have hsplit : ∑ p ∈ (a.zip b).toFinset,
      (((a.zip b).count p : ℝ) / (a.length : ℝ) -
        ((a.count p.1 : ℝ) * (b.count p.2 : ℝ)) / ((a.length : ℝ) * (a.length : ℝ))) =
      (∑ p ∈ (a.zip b).toFinset, ((a.zip b).count p : ℝ)) / (a.length : ℝ) -
        (∑ p ∈ (a.zip b).toFinset, (a.count p.1 : ℝ) * (b.count p.2 : ℝ)) /
          ((a.length : ℝ) * (a.length : ℝ)) := by
    rw [Finset.sum_sub_distrib, Finset.sum_div, Finset.sum_div]
  have hcnt : ∑ p ∈ (a.zip b).toFinset, ((a.zip b).count p : ℝ) = (a.length : ℝ) := by
    rw [← Nat.cast_sum, list_toFinset_sum_count, hvlen]
  have hsub : (a.zip b).toFinset ⊆ a.toFinset ×ˢ b.toFinset := by
    intro p hp
    have hpm : p ∈ a.zip b := List.mem_toFinset.mp hp
    obtain ⟨p1, p2⟩ := p
    have hmem := List.of_mem_zip hpm
    exact Finset.mem_product.mpr ⟨List.mem_toFinset.mpr hmem.1, List.mem_toFinset.mpr hmem.2⟩
  have hprodsum : ∑ p ∈ a.toFinset ×ˢ b.toFinset, (a.count p.1 : ℝ) * (b.count p.2 : ℝ) =
      (a.length : ℝ) * (a.length : ℝ) := by
    rw [Finset.sum_product]
    simp only []
    rw [show (∑ x ∈ a.toFinset, ∑ y ∈ b.toFinset,
        ((a.count (x, y).1 : ℝ) * (b.count (x, y).2 : ℝ))) =
        ∑ x ∈ a.toFinset, ∑ y ∈ b.toFinset, ((a.count x : ℝ) * (b.count y : ℝ)) from rfl,
      ← Finset.sum_mul_sum]
    have ha : ∑ x ∈ a.toFinset, (a.count x : ℝ) = (a.length : ℝ) := by
      rw [← Nat.cast_sum, list_toFinset_sum_count]
    have hb : ∑ y ∈ b.toFinset, (b.count y : ℝ) = (a.length : ℝ) := by
      rw [← Nat.cast_sum, list_toFinset_sum_count, ← h]
    rw [ha, hb]
  have hprodle : ∑ p ∈ (a.zip b).toFinset, (a.count p.1 : ℝ) * (b.count p.2 : ℝ) ≤
      (a.length : ℝ) * (a.length : ℝ) := by
    rw [← hprodsum]
    apply Finset.sum_le_sum_of_subset_of_nonneg hsub
    intro p _ _
    positivity
  have hfinal : 0 ≤ (∑ p ∈ (a.zip b).toFinset, ((a.zip b).count p : ℝ)) / (a.length : ℝ) -
      (∑ p ∈ (a.zip b).toFinset, (a.count p.1 : ℝ) * (b.count p.2 : ℝ)) /
        ((a.length : ℝ) * (a.length : ℝ)) := by
    rw [hcnt, div_self hnR.ne']
    have h1 : (∑ p ∈ (a.zip b).toFinset, (a.count p.1 : ℝ) * (b.count p.2 : ℝ)) /
        ((a.length : ℝ) * (a.length : ℝ)) ≤ 1 := by
      rw [div_le_one (by positivity)]
      exact hprodle
    linarith
  linarith [hsum, hsplit ▸ hfinal]

/-- The mutual-information score is nonnegative (Gibbs' inequality over the
observed contingency cells). -/
lemma miScore_nonneg (la lb : List (Option String)) : 0 ≤ miScore la lb := by
  simp only [miScore]
  have hlen : (la.take (min la.length lb.length)).length = min la.length lb.length := by
    rw [List.length_take]
    exact min_eq_left (min_le_left _ _)
  have hlenb : (lb.take (min la.length lb.length)).length = min la.length lb.length := by
    rw [List.length_take]
    exact min_eq_left (min_le_right _ _)
  have h := mi_sum_nonneg (la.take (min la.length lb.length))
    (lb.take (min la.length lb.length)) (by rw [hlen, hlenb])
  rw [hlen] at h
  exact h

/-- Claim C7: the mutual-information matrix is square over the given column
list, symmetric by construction (each unordered pair is computed once and
mirrored), has 0 on the diagonal (left there, never computed), has
nonnegative scores everywhere off the diagonal, and is empty for an empty
column list. -/
theorem mutual_info_matrix_props (df : DataFrame) (columns : List String) :
    (compute_mutual_info df columns).idx = columns ∧
    (∀ i j, (compute_mutual_info df columns).entry i j =
      (compute_mutual_info df columns).entry j i) ∧
    (∀ i, (compute_mutual_info df columns).entry i i = 0) ∧
    (∀ i j, i ≠ j → 0 ≤ (compute_mutual_info df columns).entry i j) ∧
    (columns = [] → (compute_mutual_info df columns).idx = []) := by
  refine ⟨rfl, ?_, ?_, ?_, fun h => h ▸ rfl⟩
  · intro i j
    rcases lt_trichotomy i j with h | h | h
    · simp [compute_mutual_info, h, lt_asymm h]
    · subst h
      rfl
    · simp [compute_mutual_info, h, lt_asymm h]
  · intro i
    simp [compute_mutual_info]
  · intro i j hij
    rcases lt_trichotomy i j with h | h | h
    · simp only [compute_mutual_info, h, if_true, reduceIte]
      exact miScore_nonneg _ _
    · exact absurd h hij
    · simp only [compute_mutual_info, lt_asymm h, h, if_false, reduceIte]
      exact miScore_nonneg _ _

/-- Witness for claim C7 at a concrete frame and two-column list. -/
theorem mutual_info_matrix_props_witness :
    (compute_mutual_info dfTwoColors ["color", "shape"]).entry 0 0 = 0 ∧
      0 ≤ (compute_mutual_info dfTwoColors ["color", "shape"]).entry 0 1 ∧
      (compute_mutual_info dfTwoColors ["color", "shape"]).idx = ["color", "shape"] :=
  ⟨(mutual_info_matrix_props dfTwoColors ["color", "shape"]).2.2.1 0,
   (mutual_info_matrix_props dfTwoColors ["color", "shape"]).2.2.2.1 0 1 (by decide),
   (mutual_info_matrix_props dfTwoColors ["color", "shape"]).1⟩

/-! ### Conclusion-generator lemmas -/

lemma argmaxFirst_spec {ι α : Type} [LinearOrder α] (l : List (ι × α)) (p : ι × α)
    (h : argmaxFirst l = some p) : p ∈ l ∧ ∀ q ∈ l, q.2 ≤ p.2 := by
  induction l generalizing p with
  | nil => cases h
  | cons x t ih =>
    rw [argmaxFirst] at h
    cases ht : argmaxFirst t with
    | none =>
      rw [ht] at h
      obtain rfl : x = p := Option.some.inj h
      have htnil : t = [] := by
        cases t with
        | nil => rfl
        | cons y u =>
          exfalso
          rw [argmaxFirst] at ht
          cases hu : argmaxFirst u with
          | none => rw [hu] at ht; cases ht
          | some q => rw [hu] at ht; by_cases hq : y.2 < q.2 <;> simp [hq] at ht
      subst htnil
      exact ⟨List.mem_singleton_self x, fun q hq => by
        rw [List.mem_singleton.mp hq]⟩
    | some q =>
      rw [ht] at h
      have h' : (if x.2 < q.2 then some q else some x) = some p := h
      obtain ⟨hqmem, hqmax⟩ := ih q ht
      by_cases hx : x.2 < q.2
      · rw [if_pos hx] at h'
        obtain rfl : q = p := Option.some.inj h'
        refine ⟨List.mem_cons_of_mem _ hqmem, fun r hr => ?_⟩
        rcases List.mem_cons.mp hr with h1 | h1
        · rw [h1]; exact le_of_lt hx
        · exact hqmax r h1
      · rw [if_neg hx] at h'
        obtain rfl : x = p := Option.some.inj h'
        refine ⟨List.mem_cons_self _ _, fun r hr => ?_⟩
        rcases List.mem_cons.mp hr with h1 | h1
        · rw [h1]
        · exact le_trans (hqmax r h1) (not_lt.mp hx)

lemma argminFirst_spec {ι α : Type} [LinearOrder α] (l : List (ι × α)) (p : ι × α)
    (h : argminFirst l = some p) : p ∈ l ∧ ∀ q ∈ l, p.2 ≤ q.2 := by
  induction l generalizing p with
  | nil => cases h
  | cons x t ih =>
    rw [argminFirst] at h
    cases ht : argminFirst t with
    | none =>
      rw [ht] at h
      obtain rfl : x = p := Option.some.inj h
      have htnil : t = [] := by
        cases t with
        | nil => rfl
        | cons y u =>
          exfalso
          rw [argminFirst] at ht
          cases hu : argminFirst u with
          | none => rw [hu] at ht; cases ht
          | some q => rw [hu] at ht; by_cases hq : q.2 < y.2 <;> simp [hq] at ht
      subst htnil
      exact ⟨List.mem_singleton_self x, fun q hq => by
        rw [List.mem_singleton.mp hq]⟩
    | some q =>
      rw [ht] at h
      have h' : (if q.2 < x.2 then some q else some x) = some p := h
      obtain ⟨hqmem, hqmin⟩ := ih q ht
      by_cases hx : q.2 < x.2
      · rw [if_pos hx] at h'
        obtain rfl : q = p := Option.some.inj h'
        refine ⟨List.mem_cons_of_mem _ hqmem, fun r hr => ?_⟩
        rcases List.mem_cons.mp hr with h1 | h1
        · rw [h1]; exact le_of_lt hx
        · exact hqmin r h1
      · rw [if_neg hx] at h'
        obtain rfl : x = p := Option.some.inj h'
        refine ⟨List.mem_cons_self _ _, fun r hr => ?_⟩
        rcases List.mem_cons.mp hr with h1 | h1
        · rw [h1]
        · exact le_trans (not_lt.mp hx) (hqmin r h1)

lemma argmaxFirst_cons_isSome {ι α : Type} [LinearOrder α] (x : ι × α) (t : List (ι × α)) :
    (argmaxFirst (x :: t)).isSome := by
  rw [argmaxFirst]
  cases argmaxFirst t with
  | none => rfl
  | some q => by_cases h : x.2 < q.2 <;> simp [h]

lemma argminFirst_cons_isSome {ι α : Type} [LinearOrder α] (x : ι × α) (t : List (ι × α)) :
    (argminFirst (x :: t)).isSome := by
  rw [argminFirst]
  cases argminFirst t with
  | none => rfl
  | some q => by_cases h : q.2 < x.2 <;> simp [h]

/-- Claim C8: when the correlation matrix is present, non-empty, keeps more
than one row after dropping all-NaN rows, and has at least one present
strict-upper-triangle value, the conclusion list starts with the maximum
pairwise correlation observation followed by the minimum (most negative)
pairwise correlation observation. -/
theorem corr_extremes_lead_conclusions {α β : Type} [LinearOrderedField α]
    [LinearOrder β] (res : ResultsBundle α β) (M : MatO α)
    (hM : res.corr = some M) (hne : M.idx ≠ []) (hkept : 1 < keptRowCount M)
    (hst : stackedUpper M ≠ []) :
    ∃ mp np rest, generate_conclusions res =
        Obs.maxCorr mp.2 mp.1.1 mp.1.2 :: Obs.minCorr np.2 np.1.1 np.1.2 :: rest ∧
      mp ∈ stackedUpper M ∧ (∀ q ∈ stackedUpper M, q.2 ≤ mp.2) ∧
      np ∈ stackedUpper M ∧ (∀ q ∈ stackedUpper M, np.2 ≤ q.2) := by
  obtain ⟨x, t, hxt⟩ := List.exists_cons_of_ne_nil hst
  have hmax : (argmaxFirst (stackedUpper M)).isSome := by
    rw [hxt]; exact argmaxFirst_cons_isSome x t
  have hmin : (argminFirst (stackedUpper M)).isSome := by
    rw [hxt]; exact argminFirst_cons_isSome x t
  obtain ⟨mp, hmp⟩ := Option.isSome_iff_exists.mp hmax
  obtain ⟨np, hnp⟩ := Option.isSome_iff_exists.mp hmin
  obtain ⟨hmpmem, hmpmax⟩ := argmaxFirst_spec _ _ hmp
  obtain ⟨hnpmem, hnpmin⟩ := argminFirst_spec _ _ hnp
  have heq : ∃ rest, generate_conclusions res =
      Obs.maxCorr mp.2 mp.1.1 mp.1.2 :: Obs.minCorr np.2 np.1.1 np.1.2 :: rest := by
    simp only [generate_conclusions, hM, hmp, hnp,
      if_pos (show M.idx ≠ [] ∧ 1 < keptRowCount M from ⟨hne, hkept⟩),
      List.cons_append, List.append_assoc, List.nil_append]
    exact ⟨_, rfl⟩
  obtain ⟨rest, hrest⟩ := heq
  exact ⟨mp, np, rest, hrest, hmpmem, hmpmax, hnpmem, hnpmin⟩

/-- A concrete 2×2 correlation matrix over ℚ used by the C8 witness. -/
def matW : MatO ℚ :=
  { idx := ["a", "b"], entry := fun i j => if i = j then some 1 else some (1 / 2) }

/-- A concrete result bundle containing only the correlation matrix. -/
def resW : ResultsBundle ℚ ℚ :=
  { corr := some matW, distributions := [], mi := none }

/-- Witness for claim C8 at a concrete 2×2 rational matrix. -/
theorem corr_extremes_lead_conclusions_witness :
    ∃ mp np rest, generate_conclusions resW =
        Obs.maxCorr mp.2 mp.1.1 mp.1.2 :: Obs.minCorr np.2 np.1.1 np.1.2 :: rest ∧
      mp ∈ stackedUpper matW ∧ (∀ q ∈ stackedUpper matW, q.2 ≤ mp.2) ∧
      np ∈ stackedUpper matW ∧ (∀ q ∈ stackedUpper matW, np.2 ≤ q.2) :=
  corr_extremes_lead_conclusions resW matW rfl (by decide) (by decide) (by decide)

/-! ### Store frame lemmas -/

lemma foldl_set_get? {γ δ : Type} (g : List γ → δ → γ) (rc : ℕ) :
    ∀ (l : List δ) (s0 : List γ) (i : ℕ), i ≠ rc →
      (l.foldl (fun st c => st.set rc (g st c)) s0).get? i = s0.get? i := by
  intro l
  induction l with
  | nil => intro s0 i _; rfl
  | cons c l ih =>
    intro s0 i hi
    rw [List.foldl_cons, ih _ i hi, List.get?_set_ne _ _ (Ne.symm hi)]

lemma foldl_get?_invariant {γ δ : Type} (f : List γ → δ → List γ) (i : ℕ)
    (hf : ∀ st c, (f st c).get? i = st.get? i) :
    ∀ (l : List δ) (s0 : List γ), (l.foldl f s0).get? i = s0.get? i := by
  intro l
  induction l with
  | nil => intro s0; rfl
  | cons c l ih =>
    intro s0
    rw [List.foldl_cons, ih, hf]

/-- Claim C9: none of the core operations mutates any frame the caller
already holds: single-column encode, bulk encode, distribution
summarization, correlation computation and mutual-information computation
each leave every pre-existing store slot unchanged (they allocate and write
only fresh copies). -/
theorem core_ops_preserve_caller_frames :
    (∀ (s : Store) (r : ℕ) (c m : String) (s2 : Store) (r2 : ℕ),
        encode_categorical_S s r c m = .ok (s2, r2) →
        ∀ i, i < s.length → s2.get? i = s.get? i) ∧
    (∀ (s : Store) (r : ℕ) (m : String) (s2 : Store) (r2 : ℕ),
        encode_all_columns_S s r m = .ok (s2, r2) →
        ∀ i, i < s.length → s2.get? i = s.get? i) ∧
    (∀ (s : Store) (r : ℕ) (s2 : Store) (d : List (String × DistInfo)),
        compute_distributions_S s r = .ok (s2, d) →
        ∀ i, i < s.length → s2.get? i = s.get? i) ∧
    (∀ (s : Store) (r : ℕ) (s2 : Store) (M : MatO ℝ),
        compute_correlation_matrix_S s r = .ok (s2, M) →
        ∀ i, i < s.length → s2.get? i = s.get? i) ∧
    (∀ (s : Store) (r : ℕ) (cols : Option (List String)) (s2 : Store) (M : MatT ℝ),
        compute_mutual_info_S s r cols = .ok (s2, M) →
        ∀ i, i < s.length → s2.get? i = s.get? i) := by
  refine ⟨?_, ?_, ?_, ?_, ?_⟩
  · intro s r c m s2 r2 hok i hi
    cases hget : s[r]? with
    | none => simp [encode_categorical_S, hget] at hok
    | some df =>
      by_cases hmem : c ∈ colNames df
      · by_cases hm1 : m = "onehot"
        · simp [encode_categorical_S, hget, hmem, hm1] at hok
          rw [← hok.1]
          exact List.get?_append hi
        · by_cases hm2 : m = "ordinal"
          · simp [encode_categorical_S, hget, hmem, hm1, hm2] at hok
            rw [← hok.1]
            exact List.get?_append hi
          · by_cases hm3 : m = "label"
            · simp [encode_categorical_S, hget, hmem, hm1, hm2, hm3] at hok
              rw [← hok.1]
              exact List.get?_append hi
            · simp [encode_categorical_S, hget, hmem, hm1, hm2, hm3] at hok
      · simp [encode_categorical_S, hget, hmem] at hok
  · intro s r m s2 r2 hok i hi
    cases hget : s[r]? with
    | none => simp [encode_all_columns_S, hget] at hok
    | some df =>
      by_cases hm1 : m = "onehot"
      · simp [encode_all_columns_S, hget, hm1] at hok
        rw [← hok.1]
        exact List.get?_append hi
      · by_cases hm2 : m = "ordinal" ∨ m = "label"
        · simp [encode_all_columns_S, hget, hm1, if_pos hm2] at hok
          rw [← hok.1]
          exact (foldl_get?_invariant _ i
            (fun st c => List.get?_set_ne _ _ (Nat.ne_of_gt hi)) _ _).trans
            (List.get?_append hi)
        · simp [encode_all_columns_S, hget, hm1, hm2] at hok
  · intro s r s2 d hok i hi
    cases hget : s[r]? with
    | none => simp [compute_distributions_S, hget] at hok
    | some df =>
      simp [compute_distributions_S, hget] at hok
      rw [← hok.1]
  · intro s r s2 M hok i hi
    cases hget : s[r]? with
    | none => simp [compute_correlation_matrix_S, hget] at hok
    | some df =>
      simp [compute_correlation_matrix_S, hget] at hok
      rw [← hok.1]
      exact (foldl_get?_invariant _ i
        (fun st c => List.get?_set_ne _ _ (Nat.ne_of_gt hi)) _ _).trans
        (List.get?_append hi)
  · intro s r cols s2 M hok i hi
    cases hget : s[r]? with
    | none => simp [compute_mutual_info_S, hget] at hok
    | some df =>
      simp [compute_mutual_info_S, hget] at hok
      rw [← hok.1]

/-- The ordinal-encoded copy of `dfTwoColors`, as allocated by the
store-level single-column encode. -/
def dfTwoColorsOrd : DataFrame :=
  setCol dfTwoColors "color" (ordinalTransformCol (getColD dfTwoColors "color"))

/-- Witness for claim C9: an ordinal encode on a one-frame store leaves the
caller's slot untouched. -/
theorem core_ops_preserve_caller_frames_witness :
    encode_categorical_S [dfTwoColors] 0 "color" "ordinal" =
        .ok ([dfTwoColors, dfTwoColorsOrd], 1) ∧
      ([dfTwoColors, dfTwoColorsOrd] : Store).get? 0 = ([dfTwoColors] : Store).get? 0 := by
  have h1 : encode_categorical_S [dfTwoColors] 0 "color" "ordinal" =
      .ok ([dfTwoColors, dfTwoColorsOrd], 1) := rfl
  exact ⟨h1, core_ops_preserve_caller_frames.1 [dfTwoColors] 0 "color" "ordinal"
    [dfTwoColors, dfTwoColorsOrd] 1 h1 0 (by decide)⟩
